import Mathlib

/-!
Verification of the brick-kiln labeling tool (src/app.py).

The filtering / navigation / labeling state machine of the app is shallowly
embedded here: identifier strings are lists of characters, the numeric
percentage columns are exact rationals, Streamlit session state is an explicit
`AppState` record, and each button handler becomes a state-transition
function. Python exceptions are modelled as `Option.none`.
-/

namespace BrickKiln

/-- Identifier strings are modelled as lists of characters. -/
abbrev Str := List Char

/-- Model of the Python expression `filename.replace('.png', '')` in
`extract_coordinates` (src/app.py line 20): remove every non-overlapping,
left-to-right occurrence of the four characters `.png`. -/
def stripPng : Str → Str
  | [] => []
  | '.' :: 'p' :: 'n' :: 'g' :: rest => stripPng rest
  | c :: cs => c :: stripPng cs

/-- Model of Python `str.split(sep)` for a one-character separator, as used on
line 20 (`.split('_')`) and inside the float parser (splitting at the decimal
point). -/
def splitOnChar (sep : Char) : Str → List Str
  | [] => [[]]
  | c :: cs =>
    if c = sep then [] :: splitOnChar sep cs
    else
      match splitOnChar sep cs with
      | [] => [[c]]
      | h :: t => (c :: h) :: t

def digitVal (c : Char) : ℕ := c.toNat - 48

def digitsToNat (l : Str) : ℕ := l.foldl (fun a c => 10 * a + digitVal c) 0

/-- Modelled from the spec: Python's built-in float parser (`float(...)` on
line 21 is a Python built-in, not repository code), restricted to plain
decimal literals — digits with at most one decimal point and at least one
digit overall. The value is represented exactly as a rational. -/
def pyFloatMag (s : Str) : Option ℚ :=
  match splitOnChar '.' s with
  | [ip] => if ip ≠ [] ∧ ip.all Char.isDigit then some (digitsToNat ip : ℚ) else none
  | [ip, fp] =>
    if (ip ≠ [] ∨ fp ≠ []) ∧ ip.all Char.isDigit ∧ fp.all Char.isDigit then
      some ((digitsToNat ip : ℚ) + (digitsToNat fp : ℚ) / (10 : ℚ) ^ fp.length)
    else none
  | _ => none

/-- Modelled from the spec: Python `float(...)` with an optional leading
minus sign in front of a decimal magnitude. -/
def pyFloat (s : Str) : Option ℚ :=
  if s.head? = some '-' then (pyFloatMag (s.drop 1)).map (fun q => -q) else pyFloatMag s

/-- Embedding of `extract_coordinates` (src/app.py lines 18-21): strip
`.png`, split on `_`, convert pieces 0 and 1 with `float`. A Python
exception (IndexError or ValueError) is modelled as `none`. -/
def extract_coordinates (filename : Str) : Option (ℚ × ℚ) :=
  ((splitOnChar '_' (stripPng filename))[0]?).bind fun c0 =>
  ((splitOnChar '_' (stripPng filename))[1]?).bind fun c1 =>
  (pyFloat c0).bind fun a =>
  (pyFloat c1).bind fun b =>
  some (a, b)

/-- The character for a single decimal digit. -/
def digitChar (d : Fin 10) : Char := Char.ofNat (48 + d.val)

def natOfDigits (l : List (Fin 10)) : ℕ := l.foldl (fun a d => 10 * a + d.val) 0

/-- Modelled from the spec: a decimal numeral for a representable coordinate
value, as produced by Python float formatting inside the id-construction
format (an f-string is a Python built-in, not repository code): an optional
minus sign, integer-part digits, a decimal point, fraction digits. -/
structure DecimalLit where
  neg : Bool
  ip : List (Fin 10)
  fp : List (Fin 10)

def DecimalLit.val (d : DecimalLit) : ℚ :=
  (if d.neg then -1 else 1) *
    ((natOfDigits d.ip : ℚ) + (natOfDigits d.fp : ℚ) / (10 : ℚ) ^ d.fp.length)

def DecimalLit.render (d : DecimalLit) : Str :=
  (if d.neg then ['-'] else []) ++ d.ip.map digitChar ++ '.' :: d.fp.map digitChar

-- Facts about digit characters, decided by enumeration over `Fin 10`.

lemma digitChar_isDigit : ∀ d : Fin 10, (digitChar d).isDigit = true := by decide

lemma digitVal_digitChar : ∀ d : Fin 10, digitVal (digitChar d) = d.val := by decide

lemma digitChar_ne : ∀ d : Fin 10,
    digitChar d ≠ '.' ∧ digitChar d ≠ '_' ∧ digitChar d ≠ '-' ∧ digitChar d ≠ 'p' := by decide

-- Behaviour of `stripPng` on strings without the letter `p`.

lemma stripPng_no_p (s : Str) (h : 'p' ∉ s) : stripPng s = s := by
  induction s with
  | nil => rfl
  | cons c cs ih =>
    have ht : 'p' ∉ cs := fun hm => h (List.mem_cons_of_mem _ hm)
    rw [stripPng.eq_def]
    split
    · rename_i heq; simp at heq
    · rename_i rest heq
      rw [List.cons.injEq] at heq
      exact absurd (show ('p' : Char) ∈ cs by
        rw [heq.2]; exact List.mem_cons_self _ _) ht
    · rename_i c2 cs2 heq
      rw [List.cons.injEq] at heq
      rw [← heq.1, ← heq.2, ih ht]

lemma stripPng_append_ext (s : Str) (h : 'p' ∉ s) :
    stripPng (s ++ ['.', 'p', 'n', 'g']) = s := by
  induction s with
  | nil => rfl
  | cons c cs ih =>
    have ht : 'p' ∉ cs := fun hm => h (List.mem_cons_of_mem _ hm)
    rw [List.cons_append, stripPng.eq_def]
    split
    · rename_i heq; simp at heq
    · rename_i rest heq
      rw [List.cons.injEq] at heq
      exfalso
      cases cs with
      | nil => simp at heq
      | cons d t =>
        rw [List.cons_append, List.cons.injEq] at heq
        exact ht (show ('p' : Char) ∈ d :: t by
          rw [heq.2.1]; exact List.mem_cons_self _ _)
    · rename_i c2 cs2 heq
      rw [List.cons.injEq] at heq
      rw [← heq.1, ← heq.2, ih ht]

-- Behaviour of `splitOnChar`.

lemma splitOnChar_ne_nil (sep : Char) (s : Str) : splitOnChar sep s ≠ [] := by
  cases s with
  | nil => simp [splitOnChar]
  | cons c cs =>
    rw [splitOnChar.eq_def]
    by_cases hc : c = sep
    · simp [hc]
    · simp only [hc, if_false]
      split <;> simp

lemma splitOnChar_not_mem (sep : Char) (s : Str) (h : sep ∉ s) : splitOnChar sep s = [s] := by
  induction s with
  | nil => rfl
  | cons c cs ih =>
    have hc : ¬ c = sep := fun he => h (he ▸ List.mem_cons_self _ _)
    have ht : sep ∉ cs := fun hm => h (List.mem_cons_of_mem _ hm)
    simp [splitOnChar, hc, ih ht]

lemma splitOnChar_append_sep (sep : Char) (a b : Str) (ha : sep ∉ a) :
    splitOnChar sep (a ++ sep :: b) = a :: splitOnChar sep b := by
  induction a with
  | nil => simp [splitOnChar]
  | cons c cs ih =>
    have hc : ¬ c = sep := fun he => ha (he ▸ List.mem_cons_self _ _)
    have ht : sep ∉ cs := fun hm => ha (List.mem_cons_of_mem _ hm)
    simp only [List.cons_append, splitOnChar, hc, if_false, List.append_eq, ih ht]

-- Parsing a rendered decimal literal recovers its value.

lemma digitsToNat_map_digitChar (l : List (Fin 10)) :
    digitsToNat (l.map digitChar) = natOfDigits l := by
  unfold digitsToNat natOfDigits
  rw [List.foldl_map]
  congr 1
  funext a d
  rw [digitVal_digitChar]

lemma mem_render (d : DecimalLit) (c : Char) (h : c ∈ d.render) :
    c = '-' ∨ c = '.' ∨ c.isDigit = true := by
  unfold DecimalLit.render at h
  simp only [List.mem_append, List.mem_cons, List.mem_map] at h
  rcases h with ((hs | ⟨x, _, hx⟩) | hc | ⟨x, _, hx⟩)
  · cases hn : d.neg
    · rw [hn] at hs; simp at hs
    · rw [hn] at hs; simp at hs; exact Or.inl hs
  · exact Or.inr (Or.inr (hx ▸ digitChar_isDigit x))
  · exact Or.inr (Or.inl hc)
  · exact Or.inr (Or.inr (hx ▸ digitChar_isDigit x))

lemma underscore_not_mem_render (d : DecimalLit) : '_' ∉ d.render := by
  intro h
  rcases mem_render d '_' h with hc | hc | hc <;> revert hc <;> decide

lemma p_not_mem_render (d : DecimalLit) : 'p' ∉ d.render := by
  intro h
  rcases mem_render d 'p' h with hc | hc | hc <;> revert hc <;> decide

lemma dot_not_mem_map_digitChar (l : List (Fin 10)) : '.' ∉ l.map digitChar := by
  intro h
  rcases List.mem_map.mp h with ⟨x, _, hx⟩
  exact (digitChar_ne x).1 hx

lemma all_isDigit_map_digitChar (l : List (Fin 10)) :
    (l.map digitChar).all Char.isDigit = true := by
  rw [List.all_eq_true]
  intro c hc
  rcases List.mem_map.mp hc with ⟨x, _, hx⟩
  exact hx ▸ digitChar_isDigit x

/-- Parsing the magnitude part of a rendered literal. -/
lemma pyFloatMag_render (ip fp : List (Fin 10)) (h : ip ≠ [] ∨ fp ≠ []) :
    pyFloatMag (ip.map digitChar ++ '.' :: fp.map digitChar) =
      some ((natOfDigits ip : ℚ) + (natOfDigits fp : ℚ) / (10 : ℚ) ^ fp.length) := by
  have hne : ip.map digitChar ≠ [] ∨ fp.map digitChar ≠ [] := by
    rcases h with h | h
    · exact Or.inl (by simpa using h)
    · exact Or.inr (by simpa using h)
  unfold pyFloatMag
  rw [splitOnChar_append_sep '.' _ _ (dot_not_mem_map_digitChar ip),
    splitOnChar_not_mem '.' _ (dot_not_mem_map_digitChar fp)]
  split
  · rename_i heq; simp at heq
  · rename_i ip2 fp2 heq
    simp only [List.cons.injEq, and_true] at heq
    rw [← heq.1, ← heq.2,
      if_pos ⟨hne, all_isDigit_map_digitChar ip, all_isDigit_map_digitChar fp⟩,
      digitsToNat_map_digitChar, digitsToNat_map_digitChar, List.length_map]
  · rename_i hne1 hne2
    exact absurd rfl (hne2 (ip.map digitChar) (fp.map digitChar))

/-- Parsing a rendered decimal literal yields exactly its value. -/
lemma pyFloat_render (d : DecimalLit) (h : d.ip ≠ [] ∨ d.fp ≠ []) :
    pyFloat d.render = some d.val := by
  cases hn : d.neg
  · have hr : d.render = d.ip.map digitChar ++ '.' :: d.fp.map digitChar := by
      unfold DecimalLit.render
      rw [hn]
      simp
    have hhead : (d.ip.map digitChar ++ '.' :: d.fp.map digitChar).head? ≠ some '-' := by
      cases hip : d.ip with
      | nil => simp
      | cons x xs =>
        intro hc
        simp only [hip, List.map_cons, List.cons_append, List.head?_cons,
          Option.some.injEq] at hc
        exact (digitChar_ne x).2.2.1 hc
    unfold pyFloat DecimalLit.val
    rw [hr, if_neg hhead, pyFloatMag_render _ _ h, hn]
    simp
  · have hr : d.render = '-' :: (d.ip.map digitChar ++ '.' :: d.fp.map digitChar) := by
      unfold DecimalLit.render
      rw [hn]
      simp
    unfold pyFloat DecimalLit.val
    rw [hr]
    have hhead : (('-' : Char) :: (d.ip.map digitChar ++ '.' :: d.fp.map digitChar)).head? =
        some '-' := rfl
    rw [if_pos hhead]
    simp only [List.drop_succ_cons, List.drop_zero]
    rw [pyFloatMag_render _ _ h, hn]
    simp only [Option.map_some', if_true]
    rw [neg_one_mul]

/-- Shared round-trip fact: extracting coordinates from an id built from two
rendered decimal literals (with or without the trailing extension) recovers
the two values. -/
lemma extract_coordinates_render (d1 d2 : DecimalLit)
    (h1 : d1.ip ≠ [] ∨ d1.fp ≠ []) (h2 : d2.ip ≠ [] ∨ d2.fp ≠ []) :
    extract_coordinates (d1.render ++ '_' :: d2.render ++ ['.', 'p', 'n', 'g']) =
      some (d1.val, d2.val) ∧
    extract_coordinates (d1.render ++ '_' :: d2.render) = some (d1.val, d2.val) := by
  have hp : 'p' ∉ d1.render ++ '_' :: d2.render := by
    intro hm
    rcases List.mem_append.mp hm with hm | hm
    · exact p_not_mem_render d1 hm
    · rcases List.mem_cons.mp hm with hm | hm
      · exact absurd hm (by decide)
      · exact p_not_mem_render d2 hm
  have hsplit : splitOnChar '_' (d1.render ++ '_' :: d2.render) = [d1.render, d2.render] := by
    rw [splitOnChar_append_sep '_' _ _ (underscore_not_mem_render d1),
      splitOnChar_not_mem '_' _ (underscore_not_mem_render d2)]
  have hshape : d1.render ++ '_' :: d2.render ++ ['.', 'p', 'n', 'g'] =
      (d1.render ++ '_' :: d2.render) ++ ['.', 'p', 'n', 'g'] := by
    simp
  constructor
  · unfold extract_coordinates
    rw [hshape, stripPng_append_ext _ hp, hsplit]
    simp only [List.getElem?_cons_zero, List.getElem?_cons_succ, Option.some_bind,
      pyFloat_render d1 h1, pyFloat_render d2 h2]
  · unfold extract_coordinates
    rw [stripPng_no_p _ hp, hsplit]
    simp only [List.getElem?_cons_zero, List.getElem?_cons_succ, Option.some_bind,
      pyFloat_render d1 h1, pyFloat_render d2 h2]

/-! ## Data model: table, filtered rows, session state -/

/-- One row of the loaded CSV: a filename plus the numeric land-cover columns,
viewed as a total map from column name to value (exact rationals stand in for
the floating-point percentages). -/
structure Row where
  filename : Str
  cat : String → ℚ

/-- The loaded table: the list of numeric column names (`numeric_cols`,
line 55) and the rows. -/
structure Table where
  cols : List String
  rows : List Row

/-- A row of `filtered_df` right after the filter branch (lines 111-124):
the original columns plus the derived `max_category` and `max_percentage`. -/
structure DRow where
  filename : Str
  cat : String → ℚ
  max_category : String
  max_percentage : ℚ

/-- A row of `st.session_state.filtered_data`: a `DRow` plus the `lat` and
`lon` columns added on line 127. -/
structure FRow where
  filename : Str
  cat : String → ℚ
  max_category : String
  max_percentage : ℚ
  lat : ℚ
  lon : ℚ

/-- Row-wise maximum over the selected columns, as computed by pandas
`df[cols].max(axis=1)` (lines 118 and 123). -/
def rowMax (r : Row) (cs : List String) : ℚ :=
  match cs with
  | [] => 0
  | c :: rest => rest.foldl (fun a c2 => max a (r.cat c2)) (r.cat c)

/-- Scan of pandas `idxmax`: keep the first column seen whose value is
strictly greater than the running best. -/
def idxmaxAux (r : Row) : String → ℚ → List String → String
  | best, _, [] => best
  | best, bv, c :: rest =>
    if bv < r.cat c then idxmaxAux r c (r.cat c) rest else idxmaxAux r best bv rest

/-- Row-wise argmax over the selected columns, as computed by pandas
`df[cols].idxmax(axis=1)` (lines 119 and 124): the first column attaining
the row maximum. -/
def rowIdxmax (r : Row) (cs : List String) : String :=
  match cs with
  | [] => ""
  | c :: rest => idxmaxAux r c (r.cat c) rest

/-- Attach the derived `max_category` / `max_percentage` columns computed
over the column set `cs`. -/
def deriveRow (cs : List String) (r : Row) : DRow :=
  { filename := r.filename, cat := r.cat,
    max_category := rowIdxmax r cs, max_percentage := rowMax r cs }

/-- The three filter modes of the sidebar (line 58-62). -/
inductive Policy where
  | specificCategory (name : String) (threshold : ℚ)
  | anyCategoryMax (threshold : ℚ) (consider : List String)
  | allLocations

/-- The `filtered_df` computed by the Apply Filter handler branches
(lines 111-124), including the empty-multiselect fallback to all numeric
columns (lines 100-101). -/
def computeFiltered (tbl : Table) (p : Policy) : List DRow :=
  match p with
  | .specificCategory c t =>
    (tbl.rows.filter (fun r => decide (t ≤ r.cat c))).map
      (fun r => { filename := r.filename, cat := r.cat,
                  max_category := c, max_percentage := r.cat c })
  | .anyCategoryMax t cats =>
    let cs := if cats = [] then tbl.cols else cats
    (tbl.rows.map (deriveRow cs)).filter (fun d => decide (t ≤ d.max_percentage))
  | .allLocations => tbl.rows.map (deriveRow tbl.cols)

/-- The `.apply(extract_coordinates)` part of line 127: run the extractor on
every row; an exception on any row is modelled as `none`. -/
def addCoordsEach : List DRow → Option (List FRow)
  | [] => some []
  | r :: rest =>
    match extract_coordinates r.filename with
    | none => none
    | some (la, lo) =>
      (addCoordsEach rest).map
        (fun l => { filename := r.filename, cat := r.cat, max_category := r.max_category,
                    max_percentage := r.max_percentage, lat := la, lon := lo } :: l)

/-- Line 127 in full:
`filtered_df['lat'], filtered_df['lon'] = zip(*... .apply(extract_coordinates))`.
Besides the per-row extraction failures, the two-target unpacking of
`zip(*[])` raises ValueError when the filtered result has zero rows, so the
empty subset is also a failure (`none`): the handler then aborts before the
session-state assignments of lines 129-132. -/
def addCoords (rows : List DRow) : Option (List FRow) :=
  match rows with
  | [] => none
  | r :: rest => addCoordsEach (r :: rest)

/-- The session-state fields of the labeling state machine, as initialized by
`initialize_session_state` (lines 23-32). -/
structure AppState where
  filtered_data : List FRow
  current_index : ℕ
  labels : List (Str × ℕ)
  labeled_count : ℕ

/-- The state created by `initialize_session_state` on first run. -/
def initialState : AppState :=
  { filtered_data := [], current_index := 0, labels := [], labeled_count := 0 }

/-- The session state right after a filter is applied with subset `sub`
(lines 129-132). -/
def postFilterState (sub : List FRow) : AppState :=
  { filtered_data := sub, current_index := 0, labels := [], labeled_count := 0 }

/-- Lines 126-132 of the Apply Filter handler: add coordinates, then install
the freshly filtered data and reset cursor, labels and labeled count. The
prior state is discarded wholesale. -/
def applyFilterStep (st : AppState) (tbl : Table) (p : Policy) : Option AppState :=
  (addCoords (computeFiltered tbl p)).map
    (fun fd => { filtered_data := fd, current_index := 0, labels := [], labeled_count := 0 })

/-- The shared labeling code of the YES / NO / Quick NO handlers
(lines 226-228, 236-238, 245-247): bump `labeled_count` only when the
filename is not yet a key of the labels dict, then write the label. The dict
is modelled as an association list in insertion order. -/
def setLabelStep (st : AppState) (f : Str) (v : ℕ) : AppState :=
  if f ∈ st.labels.map Prod.fst then
    { st with labels := st.labels.map (fun p => if p.1 = f then (f, v) else p) }
  else
    { st with labels := st.labels ++ [(f, v)], labeled_count := st.labeled_count + 1 }

/-- One press of YES (v = 1) or NO / Quick NO (v = 0): record the label for
the current row's filename, then advance unless the cursor is on the last row
(lines 225-231, 235-241, 244-250). -/
def labelButtonStep (st : AppState) (v : ℕ) : AppState :=
  let f := ((st.filtered_data[st.current_index]?).map FRow.filename).getD []
  let st1 := setLabelStep st f v
  if st.current_index + 1 < st.filtered_data.length then
    { st1 with current_index := st.current_index + 1 }
  else st1

inductive LabelOp where
  | yes
  | no
  | quickNo

def LabelOp.val : LabelOp → ℕ
  | .yes => 1
  | .no => 0
  | .quickNo => 0

def runLabelOps (st : AppState) (ops : List LabelOp) : AppState :=
  ops.foldl (fun s op => labelButtonStep s op.val) st

inductive NavOp where
  | previous
  | next
  | skip

/-- The Previous / Next / Skip handlers (lines 255-271). A disabled button
(Previous at index 0, Next at the last index) is modelled as a no-op; Skip
checks its bound inside the handler. -/
def navStep (st : AppState) : NavOp → AppState
  | .previous =>
    if st.current_index = 0 then st else { st with current_index := st.current_index - 1 }
  | .next =>
    if st.current_index + 1 < st.filtered_data.length then
      { st with current_index := st.current_index + 1 }
    else st
  | .skip =>
    if st.current_index + 1 < st.filtered_data.length then
      { st with current_index := st.current_index + 1 }
    else st

def runNavOps (st : AppState) (ops : List NavOp) : AppState :=
  ops.foldl navStep st

/-- One line of the exported results table (lines 283-290). -/
structure LabelRecord where
  filename : Str
  lat : ℚ
  lon : ℚ
  brick_kiln : ℕ
  dominant_category : String
  max_percentage : ℚ

/-- The export loop (lines 280-292): one record per Label Store entry, in
insertion order, joined against the first `filtered_data` row with the same
filename; `.iloc[0]` on an empty selection (a Python IndexError) is modelled
as `none`. -/
def exportResults (fd : List FRow) : List (Str × ℕ) → Option (List LabelRecord)
  | [] => some []
  | p :: rest =>
    ((fd.filter (fun r => decide (r.filename = p.1))).head?).bind fun r =>
      (exportResults fd rest).map
        (fun recs =>
          { filename := p.1, lat := r.lat, lon := r.lon, brick_kiln := p.2,
            dominant_category := r.max_category, max_percentage := r.max_percentage } :: recs)

/-! ## Concrete example data (the two rows used in the specification) -/

/-- First example row: Built-up 60, Vegetation 40. -/
def exR1 : Row :=
  { filename := "28.6583_76.2294.png".toList,
    cat := fun s => if s = "Built-up" then 60 else if s = "Vegetation" then 40 else 0 }

/-- Second example row: Built-up 5, Vegetation 95. -/
def exR2 : Row :=
  { filename := "29.0_77.0.png".toList,
    cat := fun s => if s = "Built-up" then 5 else if s = "Vegetation" then 95 else 0 }

def exTable : Table := { cols := ["Built-up", "Vegetation"], rows := [exR1, exR2] }

/-- The first example row as a member of `filtered_data` after
`SpecificCategory("Built-up", 50)`. -/
def exFRow1 : FRow :=
  { filename := "28.6583_76.2294.png".toList, cat := exR1.cat,
    max_category := "Built-up", max_percentage := 60, lat := 28.6583, lon := 76.2294 }

/-- A scrambled prior session state, used to check that Apply Filter discards
it wholesale. -/
def junkState : AppState :=
  { filtered_data := [exFRow1], current_index := 7,
    labels := [("x".toList, 1)], labeled_count := 5 }

/-! ## Helper lemmas about the labeling and navigation steps -/

lemma setLabelStep_filtered_data (st : AppState) (f : Str) (v : ℕ) :
    (setLabelStep st f v).filtered_data = st.filtered_data := by
  unfold setLabelStep
  split <;> rfl

lemma setLabelStep_current_index (st : AppState) (f : Str) (v : ℕ) :
    (setLabelStep st f v).current_index = st.current_index := by
  unfold setLabelStep
  split <;> rfl

/-- A single `set` keeps `labeled_count = number of keys` and keeps the key
list duplicate-free. -/
lemma setLabelStep_invariant (st : AppState) (f : Str) (v : ℕ)
    (h1 : st.labeled_count = st.labels.length) (h2 : (st.labels.map Prod.fst).Nodup) :
    (setLabelStep st f v).labeled_count = (setLabelStep st f v).labels.length ∧
    ((setLabelStep st f v).labels.map Prod.fst).Nodup := by
  unfold setLabelStep
  by_cases hm : f ∈ st.labels.map Prod.fst
  · rw [if_pos hm]
    have hkeys : (st.labels.map (fun p => if p.1 = f then (f, v) else p)).map Prod.fst =
        st.labels.map Prod.fst := by
      rw [List.map_map]
      exact List.map_congr_left (fun p _ => by by_cases hp : p.1 = f <;> simp [hp])
    refine ⟨?_, hkeys ▸ h2⟩
    simpa using h1
  · rw [if_neg hm]
    constructor
    · simpa using h1
    · rw [List.map_append]
      refine List.Nodup.append h2 (List.nodup_singleton f) ?_
      intro a ha hb
      simp only [List.map_cons, List.map_nil, List.mem_singleton] at hb
      exact hm (hb ▸ ha)

/-- A label-button press preserves the count-equals-keys invariant. -/
lemma labelButtonStep_invariant (st : AppState) (v : ℕ)
    (h1 : st.labeled_count = st.labels.length) (h2 : (st.labels.map Prod.fst).Nodup) :
    (labelButtonStep st v).labeled_count = (labelButtonStep st v).labels.length ∧
    ((labelButtonStep st v).labels.map Prod.fst).Nodup := by
  have hinv := setLabelStep_invariant st
    (((st.filtered_data[st.current_index]?).map FRow.filename).getD []) v h1 h2
  unfold labelButtonStep
  split
  · exact ⟨by simpa using hinv.1, by simpa using hinv.2⟩
  · exact hinv

lemma navStep_filtered_data (st : AppState) (op : NavOp) :
    (navStep st op).filtered_data = st.filtered_data := by
  cases op <;> simp only [navStep] <;> split <;> rfl

/-- One navigation press keeps the cursor inside the subset (or at 0 for the
empty subset). -/
lemma navStep_bound (st : AppState) (op : NavOp)
    (h : st.current_index < st.filtered_data.length ∨
      (st.filtered_data = [] ∧ st.current_index = 0)) :
    (navStep st op).current_index < st.filtered_data.length ∨
      (st.filtered_data = [] ∧ (navStep st op).current_index = 0) := by
  cases op with
  | previous =>
    simp only [navStep]
    split
    · exact h
    · rename_i hidx
      rcases h with h | ⟨he, h0⟩
      · left
        show st.current_index - 1 < st.filtered_data.length
        omega
      · exact absurd h0 hidx
  | next =>
    simp only [navStep]
    split
    · rename_i hlt
      exact Or.inl hlt
    · exact h
  | skip =>
    simp only [navStep]
    split
    · rename_i hlt
      exact Or.inl hlt
    · exact h

/-! ## C1: labeled count equals the number of distinct Label Store keys -/

/-- C1: after applying a filter, for every sequence of YES / NO / Quick NO
presses (including repeated labeling of the same row), the tracked
`labeled_count` equals the number of distinct keys of the labels dict. -/
theorem labeled_count_eq_distinct_keys (sub : List FRow) (ops : List LabelOp) :
    (runLabelOps (postFilterState sub) ops).labeled_count =
      ((runLabelOps (postFilterState sub) ops).labels.map Prod.fst).dedup.length := by
  have main : ∀ (ops : List LabelOp) (st : AppState),
      st.labeled_count = st.labels.length → (st.labels.map Prod.fst).Nodup →
      (runLabelOps st ops).labeled_count = (runLabelOps st ops).labels.length ∧
      ((runLabelOps st ops).labels.map Prod.fst).Nodup := by
    intro ops
    induction ops with
    | nil => exact fun st h1 h2 => ⟨h1, h2⟩
    | cons op rest ih =>
      intro st h1 h2
      have h := labelButtonStep_invariant st op.val h1 h2
      exact ih (labelButtonStep st op.val) h.1 h.2
  obtain ⟨h1, h2⟩ := main ops (postFilterState sub) rfl (by simp [postFilterState])
  rw [h1, List.Nodup.dedup h2, List.length_map]

/-! ## C2: Apply Filter on the empty filter result -/

/-- Success path of the Apply Filter handler: when line 127 does not raise,
the resulting session state consists of the freshly computed subset, cursor
0, an empty Label Store, and `labeled_count = 0` — the same state the handler
would produce from the pristine initial session, independent of prior state.
This covers only the completing runs; see `applyFilter_empty_subset_aborts`
for the zero-row runs, where the handler raises instead. -/
theorem applyFilter_resets (st : AppState) (tbl : Table) (p : Policy) (st2 : AppState)
    (h : applyFilterStep st tbl p = some st2) :
    st2.current_index = 0 ∧ st2.labels = [] ∧ st2.labeled_count = 0 ∧
    addCoords (computeFiltered tbl p) = some st2.filtered_data ∧
    applyFilterStep initialState tbl p = some st2 := by
  unfold applyFilterStep at h ⊢
  cases hac : addCoords (computeFiltered tbl p) with
  | none => rw [hac] at h; simp at h
  | some fd =>
    rw [hac] at h
    simp only [Option.map_some'] at h
    have h2 := Option.some.inj h
    subst h2
    exact ⟨rfl, rfl, rfl, rfl, rfl⟩

/-- C2 (code bug): the claim — and the specification, which declares a
zero-row subset "valid, not an error" — require every Apply Filter run to
install the new subset and reset cursor, labels and labeled count. But on a
filter that matches zero rows (here `SpecificCategory("Built-up", 200)` on
the example table), line 127's two-target unpacking of `zip(*[])` raises
ValueError before lines 129-132, so the run produces no new state and the
prior non-empty labels and non-zero labeled count survive. -/
theorem applyFilter_empty_subset_aborts :
    computeFiltered exTable (Policy.specificCategory "Built-up" 200) = [] ∧
    applyFilterStep junkState exTable (Policy.specificCategory "Built-up" 200) = none ∧
    junkState.labels ≠ [] ∧ junkState.labeled_count ≠ 0 :=
  ⟨rfl, rfl, by decide, by decide⟩

/-- Witness exercising the success path `applyFilter_resets`: running Apply
Filter with the example table and the `SpecificCategory("Built-up", 50)`
policy (one matching row) on a scrambled prior state yields a reset state. -/
theorem applyFilter_resets_witness :
    ((applyFilterStep junkState exTable (Policy.specificCategory "Built-up" 50)).getD
        initialState).current_index = 0 ∧
    ((applyFilterStep junkState exTable (Policy.specificCategory "Built-up" 50)).getD
        initialState).labels = [] ∧
    ((applyFilterStep junkState exTable (Policy.specificCategory "Built-up" 50)).getD
        initialState).labeled_count = 0 := by
  have h := applyFilter_resets junkState exTable (Policy.specificCategory "Built-up" 50)
    ((applyFilterStep junkState exTable (Policy.specificCategory "Built-up" 50)).getD
      initialState) rfl
  exact ⟨h.1, h.2.1, h.2.2.1⟩

/-! ## C3: the cursor never leaves the subset bounds -/

/-- C3: starting at cursor 0, any sequence of Previous / Next / Skip presses
keeps the cursor inside `[0, len(subset) - 1]` for a non-empty subset, and at
0 for an empty subset (where all three are no-ops). -/
theorem cursor_stays_in_bounds (sub : List FRow) (ops : List NavOp) :
    (sub = [] → (runNavOps (postFilterState sub) ops).current_index = 0) ∧
    (sub ≠ [] → (runNavOps (postFilterState sub) ops).current_index < sub.length) := by
  have main : ∀ (ops : List NavOp) (st : AppState),
      (st.current_index < st.filtered_data.length ∨
        (st.filtered_data = [] ∧ st.current_index = 0)) →
      (runNavOps st ops).filtered_data = st.filtered_data ∧
      ((runNavOps st ops).current_index < st.filtered_data.length ∨
        (st.filtered_data = [] ∧ (runNavOps st ops).current_index = 0)) := by
    intro ops
    induction ops with
    | nil => exact fun st h => ⟨rfl, h⟩
    | cons op rest ih =>
      intro st h
      have hfd := navStep_filtered_data st op
      have hb := navStep_bound st op h
      obtain ⟨ih1, ih2⟩ := ih (navStep st op) (by rw [hfd]; exact hb)
      refine ⟨by rw [show runNavOps st (op :: rest) = runNavOps (navStep st op) rest from rfl,
        ih1, hfd], ?_⟩
      rw [show runNavOps st (op :: rest) = runNavOps (navStep st op) rest from rfl]
      rw [hfd] at ih2
      exact ih2
  constructor
  · intro hemp
    have h := main ops (postFilterState sub) (Or.inr ⟨hemp, rfl⟩)
    rcases h.2 with h2 | ⟨_, h2⟩
    · rw [show (postFilterState sub).filtered_data = sub from rfl, hemp] at h2
      simp at h2
    · exact h2
  · intro hne
    have h := main ops (postFilterState sub)
      (Or.inl (by simpa [postFilterState] using List.length_pos.mpr hne))
    rcases h.2 with h2 | ⟨h2, _⟩
    · exact h2
    · exact absurd h2 hne

/-- Witness for C3: two Next presses then a Previous press on a one-row
subset leave the cursor at index 0, inside the bounds. -/
theorem cursor_stays_in_bounds_witness :
    (runNavOps (postFilterState [exFRow1])
      [NavOp.next, NavOp.next, NavOp.previous]).current_index < 1 :=
  (cursor_stays_in_bounds [exFRow1] [NavOp.next, NavOp.next, NavOp.previous]).2 (by simp)

/-! ## C9: raising the SpecificCategory threshold shrinks the subset -/

lemma filter_length_mono {α : Type} (l : List α) (p q : α → Bool)
    (h : ∀ a, p a = true → q a = true) :
    (l.filter p).length ≤ (l.filter q).length := by
  induction l with
  | nil => simp
  | cons a t ih =>
    rw [List.filter_cons, List.filter_cons]
    by_cases hp : p a = true
    · rw [if_pos hp, if_pos (h a hp)]
      simpa using ih
    · rw [if_neg hp]
      by_cases hq : q a = true
      · rw [if_pos hq]
        exact le_trans ih (by simp)
      · rw [if_neg hq]
        exact ih

/-- C9: for thresholds `t1 ≤ t2`, the SpecificCategory subset at `t2` has at
most as many rows as the one at `t1`. -/
theorem specific_threshold_monotone (tbl : Table) (c : String) (t1 t2 : ℚ)
    (h : t1 ≤ t2) :
    (computeFiltered tbl (Policy.specificCategory c t2)).length ≤
      (computeFiltered tbl (Policy.specificCategory c t1)).length := by
  unfold computeFiltered
  rw [List.length_map, List.length_map]
  apply filter_length_mono
  intro r hr
  simp only [decide_eq_true_eq] at hr ⊢
  exact le_trans h hr

/-- Witness for C9 on the example table with thresholds 10 and 50. -/
theorem specific_threshold_monotone_witness :
    (10 : ℚ) ≤ 50 ∧
    (computeFiltered exTable (Policy.specificCategory "Built-up" 50)).length ≤
      (computeFiltered exTable (Policy.specificCategory "Built-up" 10)).length :=
  ⟨by decide, specific_threshold_monotone exTable "Built-up" 10 50 (by decide)⟩

/-! ## C10: label buttons advance the cursor except on the last row -/

lemma find?_update_mem (l : List (Str × ℕ)) (f : Str) (v : ℕ)
    (hm : f ∈ l.map Prod.fst) :
    (l.map (fun p => if p.1 = f then (f, v) else p)).find?
      (fun p => decide (p.1 = f)) = some (f, v) := by
  induction l with
  | nil => simp at hm
  | cons p t ih =>
    by_cases hp : p.1 = f
    · simp [List.find?_cons, hp]
    · have hm2 : f ∈ t.map Prod.fst := by
        rcases List.mem_cons.mp hm with hm | hm
        · exact absurd hm.symm hp
        · exact hm
      simp only [List.map_cons, if_neg hp, List.find?_cons, decide_eq_true_eq]
      rw [show (decide (p.1 = f)) = false from decide_eq_false hp]
      exact ih hm2

lemma find?_append_not_mem (l : List (Str × ℕ)) (f : Str) (v : ℕ)
    (hm : f ∉ l.map Prod.fst) :
    ((l ++ [(f, v)]).find? (fun p => decide (p.1 = f))) = some (f, v) := by
  induction l with
  | nil => simp
  | cons p t ih =>
    have hp : ¬ p.1 = f := fun he => hm (by simp [← he])
    have hm2 : f ∉ t.map Prod.fst := fun hin => hm (List.mem_cons_of_mem _ hin)
    rw [List.cons_append, List.find?_cons,
      show (decide (p.1 = f)) = false from decide_eq_false hp]
    exact ih hm2

/-- The label recorded by `setLabelStep` is retrievable at key `f`. -/
lemma setLabelStep_lookup (st : AppState) (f : Str) (v : ℕ) :
    (setLabelStep st f v).labels.find? (fun p => decide (p.1 = f)) = some (f, v) := by
  unfold setLabelStep
  by_cases hm : f ∈ st.labels.map Prod.fst
  · rw [if_pos hm]
    exact find?_update_mem st.labels f v hm
  · rw [if_neg hm]
    exact find?_append_not_mem st.labels f v hm

/-- C10: a YES / NO / Quick NO press records the label for the current row
under its filename, advances the cursor by one when it is not on the last
row, and leaves it unchanged when it is. -/
theorem label_button_advances (st : AppState) (v : ℕ)
    (h : st.current_index < st.filtered_data.length) :
    (labelButtonStep st v).labels.find?
        (fun p => decide (p.1 = (st.filtered_data.get ⟨st.current_index, h⟩).filename)) =
      some ((st.filtered_data.get ⟨st.current_index, h⟩).filename, v) ∧
    (st.current_index + 1 < st.filtered_data.length →
      (labelButtonStep st v).current_index = st.current_index + 1) ∧
    (¬ st.current_index + 1 < st.filtered_data.length →
      (labelButtonStep st v).current_index = st.current_index) := by
  have hf : ((st.filtered_data[st.current_index]?).map FRow.filename).getD [] =
      (st.filtered_data.get ⟨st.current_index, h⟩).filename := by
    rw [List.getElem?_eq_getElem h]
    rfl
  unfold labelButtonStep
  rw [hf]
  refine ⟨?_, ?_, ?_⟩
  · split
    · simpa using setLabelStep_lookup st _ v
    · exact setLabelStep_lookup st _ v
  · intro hlt
    rw [if_pos hlt]
  · intro hge
    rw [if_neg hge, setLabelStep_current_index]

/-- Witness for C10: pressing YES on the last (only) row of a one-row subset
records the label and leaves the cursor at 0. -/
theorem label_button_advances_witness :
    (labelButtonStep (postFilterState [exFRow1]) 1).labels.find?
        (fun p => decide (p.1 = exFRow1.filename)) = some (exFRow1.filename, 1) ∧
    (labelButtonStep (postFilterState [exFRow1]) 1).current_index = 0 := by
  have h := label_button_advances (postFilterState [exFRow1]) 1 (by decide)
  exact ⟨h.1, h.2.2 (by decide)⟩

/-! ## C4: the SpecificCategory filter -/

lemma filter_map_eq_filterMap {α β : Type} (p : α → Prop) [DecidablePred p]
    (f : α → β) (l : List α) :
    (l.filter (fun a => decide (p a))).map f =
      l.filterMap (fun a => if p a then some (f a) else none) := by
  induction l with
  | nil => rfl
  | cons a t ih =>
    rw [List.filter_cons, List.filterMap_cons]
    by_cases hp : p a <;> simp [hp, ih]

/-- C4: the SpecificCategory filter keeps exactly the rows whose value in the
chosen category is at least the threshold (inclusive), in table order, and on
each kept row fixes `max_category` to the chosen name and `max_percentage`
to that row's value in it. -/
theorem specific_category_filter_spec (tbl : Table) (c : String) (t : ℚ) :
    computeFiltered tbl (Policy.specificCategory c t) =
      tbl.rows.filterMap (fun r =>
        if t ≤ r.cat c then
          some { filename := r.filename, cat := r.cat, max_category := c,
                 max_percentage := r.cat c }
        else none) ∧
    ∀ d ∈ computeFiltered tbl (Policy.specificCategory c t),
      d.max_category = c ∧ t ≤ d.max_percentage := by
  constructor
  · unfold computeFiltered
    exact filter_map_eq_filterMap _ _ _
  · intro d hd
    unfold computeFiltered at hd
    rcases List.mem_map.mp hd with ⟨r, hr, rfl⟩
    have hp := (List.mem_filter.mp hr).2
    exact ⟨rfl, by simpa using hp⟩

/-- Witness for C4: the specification's example — `SpecificCategory
("Built-up", 50)` on the two example rows. -/
theorem specific_category_filter_spec_witness :
    computeFiltered exTable (Policy.specificCategory "Built-up" 50) =
      exTable.rows.filterMap (fun r =>
        if (50 : ℚ) ≤ r.cat "Built-up" then
          some { filename := r.filename, cat := r.cat, max_category := "Built-up",
                 max_percentage := r.cat "Built-up" }
        else none) :=
  (specific_category_filter_spec exTable "Built-up" 50).1

/-! ## C5: the AnyCategoryMax filter -/

lemma le_foldl_max (r : Row) (l : List String) (a : ℚ) :
    a ≤ l.foldl (fun x c2 => max x (r.cat c2)) a := by
  induction l generalizing a with
  | nil => exact le_refl a
  | cons c t ih => exact le_trans (le_max_left _ _) (ih (max a (r.cat c)))

lemma mem_le_foldl_max (r : Row) (c : String) :
    ∀ (l : List String) (a : ℚ), c ∈ l →
      r.cat c ≤ l.foldl (fun x c2 => max x (r.cat c2)) a
  | [], a, hc => absurd hc (List.not_mem_nil c)
  | d :: t, a, hc => by
    rw [List.foldl_cons]
    rcases List.mem_cons.mp hc with rfl | hc2
    · exact le_trans (le_max_right _ _) (le_foldl_max r t _)
    · exact mem_le_foldl_max r c t _ hc2

/-- `rowMax` is an upper bound for the considered columns. -/
lemma le_rowMax (r : Row) (cs : List String) (c : String) (hc : c ∈ cs) :
    r.cat c ≤ rowMax r cs := by
  cases cs with
  | nil => simp at hc
  | cons d t =>
    unfold rowMax
    rcases List.mem_cons.mp hc with rfl | hc2
    · exact le_foldl_max r t _
    · exact mem_le_foldl_max r c t _ hc2

lemma idxmaxAux_cons (r : Row) (best : String) (bv : ℚ) (c : String) (rest : List String) :
    idxmaxAux r best bv (c :: rest) =
      if bv < r.cat c then idxmaxAux r c (r.cat c) rest
      else idxmaxAux r best bv rest := rfl

/-- The scanning argmax returns the first column attaining the running
maximum. -/
lemma find?_idxmaxAux (r : Row) :
    ∀ (rest : List String) (best : String),
      (best :: rest).find?
          (fun c => decide (r.cat c = rest.foldl (fun x c2 => max x (r.cat c2)) (r.cat best)))
        = some (idxmaxAux r best (r.cat best) rest) := by
  intro rest
  induction rest with
  | nil =>
    intro best
    simp [idxmaxAux]
  | cons c t ih =>
    intro best
    rw [List.foldl_cons]
    by_cases hlt : r.cat best < r.cat c
    · rw [max_eq_right hlt.le]
      have hbne : ¬ r.cat best = List.foldl (fun x c2 => max x (r.cat c2)) (r.cat c) t :=
        ne_of_lt (lt_of_lt_of_le hlt (le_foldl_max r t (r.cat c)))
      rw [List.find?_cons_of_neg _ (by simpa using hbne), idxmaxAux_cons, if_pos hlt]
      exact ih c
    · rw [max_eq_left (not_lt.mp hlt), idxmaxAux_cons, if_neg hlt]
      by_cases hbe : r.cat best = List.foldl (fun x c2 => max x (r.cat c2)) (r.cat best) t
      · have h1 := ih best
        rw [List.find?_cons_of_pos _ (by simpa using hbe)] at h1
        rw [List.find?_cons_of_pos _ (by simpa using hbe)]
        exact h1
      · have hblt : r.cat best < List.foldl (fun x c2 => max x (r.cat c2)) (r.cat best) t :=
          lt_of_le_of_ne (le_foldl_max r t (r.cat best)) hbe
        have hcne : ¬ r.cat c = List.foldl (fun x c2 => max x (r.cat c2)) (r.cat best) t :=
          ne_of_lt (lt_of_le_of_lt (not_lt.mp hlt) hblt)
        have h1 := ih best
        rw [List.find?_cons_of_neg _ (by simpa using hbe)] at h1
        rw [List.find?_cons_of_neg _ (by simpa using hbe),
          List.find?_cons_of_neg _ (by simpa using hcne)]
        exact h1

/-- `rowIdxmax` is the first considered column attaining `rowMax`. -/
lemma rowIdxmax_find? (r : Row) (cs : List String) (h : cs ≠ []) :
    cs.find? (fun c => decide (r.cat c = rowMax r cs)) = some (rowIdxmax r cs) := by
  cases cs with
  | nil => exact absurd rfl h
  | cons c t =>
    unfold rowMax rowIdxmax
    exact find?_idxmaxAux r t c

lemma anyMax_filterMap (rows : List Row) (cs : List String) (t : ℚ) :
    (rows.map (deriveRow cs)).filter (fun d => decide (t ≤ d.max_percentage)) =
      rows.filterMap (fun r =>
        if t ≤ rowMax r cs then some (deriveRow cs r) else none) := by
  induction rows with
  | nil => rfl
  | cons r rows ih =>
    rw [List.map_cons, List.filter_cons, List.filterMap_cons]
    have hmp : (deriveRow cs r).max_percentage = rowMax r cs := rfl
    by_cases ht : t ≤ rowMax r cs <;> simp [hmp, ht, ih]

/-- C5: the AnyCategoryMax filter derives each row's `max_percentage` as the
maximum over the considered columns (falling back to all numeric columns when
the considered set is empty) and `max_category` as the first considered
column attaining it, and keeps exactly the rows whose maximum reaches the
threshold, in table order. -/
theorem any_category_max_spec (tbl : Table) (cats : List String) (t : ℚ)
    (h : (if cats = [] then tbl.cols else cats) ≠ []) :
    computeFiltered tbl (Policy.anyCategoryMax t cats) =
      tbl.rows.filterMap (fun r =>
        if t ≤ rowMax r (if cats = [] then tbl.cols else cats) then
          some (deriveRow (if cats = [] then tbl.cols else cats) r)
        else none) ∧
    (∀ (r : Row), ∀ c ∈ (if cats = [] then tbl.cols else cats),
        r.cat c ≤ (deriveRow (if cats = [] then tbl.cols else cats) r).max_percentage) ∧
    (∀ r : Row,
        (if cats = [] then tbl.cols else cats).find?
            (fun c => decide (r.cat c =
              (deriveRow (if cats = [] then tbl.cols else cats) r).max_percentage))
          = some ((deriveRow (if cats = [] then tbl.cols else cats) r).max_category)) ∧
    computeFiltered tbl (Policy.anyCategoryMax t []) =
      computeFiltered tbl (Policy.anyCategoryMax t tbl.cols) := by
  refine ⟨?_, ?_, ?_, ?_⟩
  · unfold computeFiltered
    exact anyMax_filterMap tbl.rows _ t
  · intro r c hc
    exact le_rowMax r _ c hc
  · intro r
    exact rowIdxmax_find? r _ h
  · unfold computeFiltered
    simp

/-- Witness for C5: the example from the specification, threshold 90 with an
empty considered set (falling back to both columns). -/
theorem any_category_max_spec_witness :
    computeFiltered exTable (Policy.anyCategoryMax 90 []) =
      exTable.rows.filterMap (fun r =>
        if (90 : ℚ) ≤ rowMax r (if ([] : List String) = [] then exTable.cols else []) then
          some (deriveRow (if ([] : List String) = [] then exTable.cols else []) r)
        else none) :=
  (any_category_max_spec exTable [] 90 (by decide)).1

/-! ## C6: export joins every Label Store entry against its subset row -/

/-- The specification example id parses to the expected coordinates. -/
lemma extract_example1 :
    extract_coordinates "28.6583_76.2294.png".toList = some (28.6583, 76.2294) := by
  have hren : "28.6583_76.2294.png".toList =
      (DecimalLit.render ⟨false, [2, 8], [6, 5, 8, 3]⟩) ++ '_' ::
        (DecimalLit.render ⟨false, [7, 6], [2, 2, 9, 4]⟩) ++ ['.', 'p', 'n', 'g'] := by
    decide
  rw [hren, (extract_coordinates_render ⟨false, [2, 8], [6, 5, 8, 3]⟩
    ⟨false, [7, 6], [2, 2, 9, 4]⟩ (Or.inl (by simp)) (Or.inl (by simp))).1]
  have hn1 : natOfDigits [2, 8] = 28 := by decide
  have hn2 : natOfDigits [6, 5, 8, 3] = 6583 := by decide
  have hn3 : natOfDigits [7, 6] = 76 := by decide
  have hn4 : natOfDigits [2, 2, 9, 4] = 2294 := by decide
  have h1 : DecimalLit.val ⟨false, [2, 8], [6, 5, 8, 3]⟩ = 28.6583 := by
    simp only [DecimalLit.val]
    norm_num [hn1, hn2]
  have h2 : DecimalLit.val ⟨false, [7, 6], [2, 2, 9, 4]⟩ = 76.2294 := by
    simp only [DecimalLit.val]
    norm_num [hn3, hn4]
  rw [h1, h2]

/-- C6: when every labeled id occurs in the filtered subset, export yields
exactly one record per Label Store entry (in insertion order); each record
carries the id, the coordinates extracted from that id, the stored label, and
the `max_category` / `max_percentage` of a subset row with that id. The
coordinate hypothesis states what Apply Filter guarantees for every subset
row (line 127). -/
theorem export_spec (fd : List FRow) (labels : List (Str × ℕ))
    (hjoin : ∀ p ∈ labels, ∃ r ∈ fd, r.filename = p.1)
    (hcoord : ∀ r ∈ fd, extract_coordinates r.filename = some (r.lat, r.lon)) :
    ∃ recs, exportResults fd labels = some recs ∧ recs.length = labels.length ∧
      List.Forall₂ (fun (q : LabelRecord) (p : Str × ℕ) =>
        q.filename = p.1 ∧ q.brick_kiln = p.2 ∧
        extract_coordinates q.filename = some (q.lat, q.lon) ∧
        ∃ r ∈ fd, r.filename = q.filename ∧ q.dominant_category = r.max_category ∧
          q.max_percentage = r.max_percentage) recs labels := by
  induction labels with
  | nil => exact ⟨[], rfl, rfl, List.Forall₂.nil⟩
  | cons p rest ih =>
    obtain ⟨r0, hr0mem, hr0f⟩ := hjoin p (List.mem_cons_self _ _)
    obtain ⟨recs, hres, hlen, hfa⟩ := ih (fun q hq => hjoin q (List.mem_cons_of_mem _ hq))
    have hmem0 : r0 ∈ fd.filter (fun r => decide (r.filename = p.1)) :=
      List.mem_filter.mpr ⟨hr0mem, by simp [hr0f]⟩
    obtain ⟨r, hhead⟩ : ∃ r, (fd.filter (fun r => decide (r.filename = p.1))).head? = some r := by
      cases hfl : (fd.filter (fun r => decide (r.filename = p.1))) with
      | nil => rw [hfl] at hmem0; simp at hmem0
      | cons a tl => exact ⟨a, rfl⟩
    have hrmem : r ∈ fd ∧ r.filename = p.1 := by
      have hr : r ∈ fd.filter (fun r => decide (r.filename = p.1)) := by
        cases hfl : (fd.filter (fun r => decide (r.filename = p.1))) with
        | nil => rw [hfl] at hhead; simp at hhead
        | cons a tl =>
          rw [hfl] at hhead
          simp only [List.head?_cons, Option.some.injEq] at hhead
          rw [← hhead]
          exact List.mem_cons_self _ _
      have hm := List.mem_filter.mp hr
      exact ⟨hm.1, by simpa using hm.2⟩
    rw [show exportResults fd (p :: rest) =
      ((fd.filter (fun r => decide (r.filename = p.1))).head?).bind (fun r =>
        (exportResults fd rest).map
          (fun recs =>
            { filename := p.1, lat := r.lat, lon := r.lon, brick_kiln := p.2,
              dominant_category := r.max_category,
              max_percentage := r.max_percentage } :: recs)) from rfl,
      hhead, Option.some_bind, hres]
    refine ⟨_, rfl, by simpa using congrArg Nat.succ hlen, ?_⟩
    refine List.Forall₂.cons ⟨rfl, rfl, ?_, ⟨r, hrmem.1, hrmem.2, rfl, rfl⟩⟩ hfa
    show extract_coordinates p.1 = some (r.lat, r.lon)
    rw [← hrmem.2]
    exact hcoord r hrmem.1

/-- Witness for C6: exporting after labeling the specification's example row
yields exactly one record with the expected join. -/
theorem export_spec_witness :
    ∃ recs, exportResults [exFRow1] [(exFRow1.filename, 1)] = some recs ∧
      recs.length = [(exFRow1.filename, 1)].length ∧
      List.Forall₂ (fun (q : LabelRecord) (p : Str × ℕ) =>
        q.filename = p.1 ∧ q.brick_kiln = p.2 ∧
        extract_coordinates q.filename = some (q.lat, q.lon) ∧
        ∃ r ∈ [exFRow1], r.filename = q.filename ∧ q.dominant_category = r.max_category ∧
          q.max_percentage = r.max_percentage) recs [(exFRow1.filename, 1)] := by
  refine export_spec [exFRow1] [(exFRow1.filename, 1)] ?_ ?_
  · intro p hp
    rw [List.mem_singleton] at hp
    subst hp
    exact ⟨exFRow1, List.mem_cons_self _ _, rfl⟩
  · intro r hr
    rw [List.mem_singleton] at hr
    subst hr
    exact extract_example1

/-! ## C7: the extractor does not reject malformed identifiers -/

/-- C7 counterexample: the identifier `1_2_3.png` strips and splits into
three float-parseable tokens — not exactly two — yet `extract_coordinates`
silently coerces it to the pair (1, 2) instead of failing. -/
theorem extract_silently_coerces :
    (splitOnChar '_' (stripPng "1_2_3.png".toList)).length = 3 ∧
    extract_coordinates "1_2_3.png".toList = some (1, 2) := by
  constructor
  · decide
  · have hd1 : digitsToNat ['1'] = 1 := by decide
    have hd2 : digitsToNat ['2'] = 2 := by decide
    have h : extract_coordinates "1_2_3.png".toList =
        some ((digitsToNat ['1'] : ℚ), (digitsToNat ['2'] : ℚ)) := rfl
    rw [h, hd1, hd2]
    norm_num

/-- C7 amended: extraction fails exactly when the stripped identifier splits
into fewer than two pieces or one of the FIRST TWO pieces is not
float-parseable; identifiers with extra pieces are silently truncated to
their first two pieces rather than rejected (and no dedicated
MalformedIdentifierError exists — failures are plain exceptions). -/
theorem extract_failure_characterization (s : Str) :
    extract_coordinates s = none ↔
      ((splitOnChar '_' (stripPng s)).length < 2 ∨
        pyFloat ((splitOnChar '_' (stripPng s)).getD 0 []) = none ∨
        pyFloat ((splitOnChar '_' (stripPng s)).getD 1 []) = none) := by
  unfold extract_coordinates
  cases hts : splitOnChar '_' (stripPng s) with
  | nil => exact absurd hts (splitOnChar_ne_nil _ _)
  | cons a tl =>
    cases tl with
    | nil => simp
    | cons b tl2 =>
      simp only [List.getElem?_cons_zero, List.getElem?_cons_succ, Option.some_bind,
        List.getD_cons_zero, List.getD_cons_succ]
      cases hpa : pyFloat a with
      | none => simp
      | some qa =>
        cases hpb : pyFloat b with
        | none => simp
        | some qb =>
          simp only [Option.some_bind, Option.some.injEq, List.length_cons]
          constructor
          · intro hc
            exact absurd hc (by simp)
          · intro hc
            rcases hc with hc | hc | hc
            · omega
            · exact absurd hc (by simp)
            · exact absurd hc (by simp)

/-! ## C8: extraction inverts the id-construction format -/

/-- C8: for any two decimal literals (the modelled output of Python float
formatting), extracting coordinates from `lat_lon` — with or without the
trailing `.png` extension — returns exactly the two represented values. -/
theorem extract_inverts_id_format (d1 d2 : DecimalLit)
    (h1 : d1.ip ≠ [] ∨ d1.fp ≠ []) (h2 : d2.ip ≠ [] ∨ d2.fp ≠ []) :
    extract_coordinates (d1.render ++ '_' :: d2.render ++ ['.', 'p', 'n', 'g']) =
      some (d1.val, d2.val) ∧
    extract_coordinates (d1.render ++ '_' :: d2.render) = some (d1.val, d2.val) :=
  extract_coordinates_render d1 d2 h1 h2

/-- Witness for C8 at the literals 28.6583 and 76.2294. -/
theorem extract_inverts_id_format_witness :
    extract_coordinates (DecimalLit.render ⟨false, [2, 8], [6, 5, 8, 3]⟩ ++ '_' ::
        DecimalLit.render ⟨false, [7, 6], [2, 2, 9, 4]⟩ ++ ['.', 'p', 'n', 'g']) =
      some (DecimalLit.val ⟨false, [2, 8], [6, 5, 8, 3]⟩,
        DecimalLit.val ⟨false, [7, 6], [2, 2, 9, 4]⟩) :=
  (extract_inverts_id_format ⟨false, [2, 8], [6, 5, 8, 3]⟩ ⟨false, [7, 6], [2, 2, 9, 4]⟩
    (Or.inl (by simp)) (Or.inl (by simp))).1

end BrickKiln
